import Mathlib

/-
Verification development for the botify-lite React frontend streaming
response pipeline.  The definitions below are shallow embeddings of the
TypeScript sources:

  * apps/react-frontend/src/utils/messageUtils.tsx
      (handleStreamingChunk, handleStreamingComplete, playSpeechResponse)
  * apps/react-frontend/src/hooks/useMessageManager.tsx
      (updateOrAddBotMessage) and its product-aware variant
      (updateLastBotMessageWithProducts)
  * apps/react-frontend/src/services/botservice.ts
      (sendMessageToBot, streaming branch: SSE line framing, payload
       extraction, per-line JSON capture, onStreamEnd)

JavaScript strings are modelled as Lean String, JSON.parse as an
executable recursive-descent JSON reader, and the module-level mutable
variables accumulatedJsonString / isCollectingJson as an explicit
AccState value threaded through the functions.
-/

/-! ### JavaScript string helpers -/

/-- Characters removed by JavaScript String.prototype.trim
(the common whitespace and line-terminator code points). -/
def isJsWs (c : Char) : Bool :=
  c = ' ' || c = '\t' || c = '\n' || c = '\r' ||
  c = '\x0b' || c = '\x0c' || c = '\u00A0' || c = '\uFEFF' ||
  c = '\u2028' || c = '\u2029'

/-- JavaScript .trim() on a character list: drop whitespace from both ends. -/
def jsTrim (l : List Char) : List Char :=
  ((l.dropWhile isJsWs).reverse.dropWhile isJsWs).reverse

/-- JavaScript .trim() on strings. -/
def jsTrimS (s : String) : String := String.mk (jsTrim s.data)

/-- messageUtils.tsx line 53: `if (!chunk || chunk.trim() === '') return;` -/
def skipChunk (chunk : String) : Bool :=
  chunk == "" || jsTrimS chunk == ""

/-! ### JSON values and JSON.parse -/

/-- Parsed JSON values.  Numbers keep their source literal (the claims
never inspect numeric values, only truthiness). -/
inductive Json where
  | null
  | bool (b : Bool)
  | num (lit : String)
  | str (s : String)
  | arr (elems : List Json)
  | obj (fields : List (String × Json))

/-- JSON insignificant whitespace (RFC 8259). -/
def jsonWs (c : Char) : Bool :=
  c = ' ' || c = '\t' || c = '\n' || c = '\r'

def skipWs (cs : List Char) : List Char := cs.dropWhile jsonWs

def hexVal (c : Char) : Option Nat :=
  if '0' ≤ c ∧ c ≤ '9' then some (c.toNat - 48)
  else if 'a' ≤ c ∧ c ≤ 'f' then some (c.toNat - 87)
  else if 'A' ≤ c ∧ c ≤ 'F' then some (c.toNat - 55)
  else none

/-- Body of a JSON string literal, after the opening quote.  Returns the
decoded characters and the remainder after the closing quote. -/
def parseStringBody : Nat → List Char → Option (List Char × List Char)
  | 0, _ => none
  | _, [] => none
  | fuel + 1, c :: rest =>
    if c = '"' then some ([], rest)
    else if c = '\\' then
      match rest with
      | [] => none
      | e :: rest2 =>
        let decoded : Option (Char × List Char) :=
          if e = '"' then some ('"', rest2)
          else if e = '\\' then some ('\\', rest2)
          else if e = '/' then some ('/', rest2)
          else if e = 'b' then some ('\x08', rest2)
          else if e = 'f' then some ('\x0c', rest2)
          else if e = 'n' then some ('\n', rest2)
          else if e = 'r' then some ('\r', rest2)
          else if e = 't' then some ('\t', rest2)
          else if e = 'u' then
            match rest2 with
            | h1 :: h2 :: h3 :: h4 :: rest3 =>
              match hexVal h1, hexVal h2, hexVal h3, hexVal h4 with
              | some a, some b, some c2, some d =>
                some (Char.ofNat (((a * 16 + b) * 16 + c2) * 16 + d), rest3)
              | _, _, _, _ => none
            | _ => none
          else none
        match decoded with
        | some (ch, rs) =>
          match parseStringBody fuel rs with
          | some (s, r) => some (ch :: s, r)
          | none => none
        | none => none
    else if c.toNat < 32 then none
    else
      match parseStringBody fuel rest with
      | some (s, r) => some (c :: s, r)
      | none => none

def isDigit (c : Char) : Bool := '0' ≤ c && c ≤ '9'

/-- Optional fraction and exponent of a JSON number literal. -/
def parseFracExp (cs : List Char) : Option (List Char × List Char) :=
  let step1 : Option (List Char × List Char) :=
    match cs with
    | '.' :: r =>
      let p := r.span isDigit
      if p.1 = [] then none else some ('.' :: p.1, p.2)
    | _ => some ([], cs)
  match step1 with
  | none => none
  | some (f, cs2) =>
    match cs2 with
    | e :: r =>
      if e = 'e' ∨ e = 'E' then
        let sr : List Char × List Char :=
          match r with
          | s :: rr => if s = '+' ∨ s = '-' then ([s], rr) else ([], r)
          | [] => ([], r)
        let p := sr.2.span isDigit
        if p.1 = [] then none else some (f ++ e :: (sr.1 ++ p.1), p.2)
      else some (f, cs2)
    | [] => some (f, cs2)

/-- A JSON number literal (sign, integer part, fraction, exponent). -/
def parseNum (cs : List Char) : Option (String × List Char) :=
  let sp : List Char × List Char :=
    match cs with
    | '-' :: r => (['-'], r)
    | _ => ([], cs)
  match sp.2 with
  | [] => none
  | c :: r =>
    if c = '0' then
      match parseFracExp r with
      | some (f, rest) => some (String.mk (sp.1 ++ '0' :: f), rest)
      | none => none
    else if isDigit c then
      let p := r.span isDigit
      match parseFracExp p.2 with
      | some (f, rest) => some (String.mk (sp.1 ++ c :: (p.1 ++ f)), rest)
      | none => none
    else none

mutual

/-- One JSON value, preceded by optional whitespace. -/
def parseVal : Nat → List Char → Option (Json × List Char)
  | 0, _ => none
  | fuel + 1, cs0 =>
    match skipWs cs0 with
    | [] => none
    | c :: rest =>
      if c = '"' then
        match parseStringBody (rest.length + 1) rest with
        | some (s, r) => some (Json.str (String.mk s), r)
        | none => none
      else if c = '\x7b' then
        match skipWs rest with
        | '\x7d' :: r => some (Json.obj [], r)
        | _ =>
          match parseMembers fuel rest with
          | some (fs, r) => some (Json.obj fs, r)
          | none => none
      else if c = '[' then
        match skipWs rest with
        | ']' :: r => some (Json.arr [], r)
        | _ =>
          match parseElems fuel rest with
          | some (vs, r) => some (Json.arr vs, r)
          | none => none
      else if c = 't' then
        match rest with
        | 'r' :: 'u' :: 'e' :: r => some (Json.bool true, r)
        | _ => none
      else if c = 'f' then
        match rest with
        | 'a' :: 'l' :: 's' :: 'e' :: r => some (Json.bool false, r)
        | _ => none
      else if c = 'n' then
        match rest with
        | 'u' :: 'l' :: 'l' :: r => some (Json.null, r)
        | _ => none
      else if c = '-' ∨ isDigit c then
        match parseNum (c :: rest) with
        | some (lit, r) => some (Json.num lit, r)
        | none => none
      else none

/-- Object members `"key": value (, "key": value)*` up to the closing brace. -/
def parseMembers : Nat → List Char → Option (List (String × Json) × List Char)
  | 0, _ => none
  | fuel + 1, cs0 =>
    match skipWs cs0 with
    | '"' :: rest =>
      match parseStringBody (rest.length + 1) rest with
      | some (k, r1) =>
        match skipWs r1 with
        | ':' :: r2 =>
          match parseVal fuel r2 with
          | some (v, r3) =>
            match skipWs r3 with
            | ',' :: r4 =>
              match parseMembers fuel r4 with
              | some (fs, r5) => some ((String.mk k, v) :: fs, r5)
              | none => none
            | '\x7d' :: r4 => some ([(String.mk k, v)], r4)
            | _ => none
          | none => none
        | _ => none
      | none => none
    | _ => none

/-- Array elements up to the closing bracket. -/
def parseElems : Nat → List Char → Option (List Json × List Char)
  | 0, _ => none
  | fuel + 1, cs =>
    match parseVal fuel cs with
    | some (v, r1) =>
      match skipWs r1 with
      | ',' :: r2 =>
        match parseElems fuel r2 with
        | some (vs, r3) => some (v :: vs, r3)
        | none => none
      | ']' :: r2 => some ([v], r2)
      | _ => none
    | none => none

end

/-- JSON.parse: a whole document is one value followed only by whitespace. -/
def jsonParse (s : String) : Option Json :=
  match parseVal (s.length + 1) s.data with
  | some (j, r) => if skipWs r = [] then some j else none
  | none => none

/-- JavaScript property access on a parsed JSON value (JSON.parse keeps the
last of duplicate keys; non-objects yield no property). -/
def jsonField (j : Json) (k : String) : Option Json :=
  match j with
  | Json.obj fs => (fs.reverse.find? (fun p => p.1 == k)).map (fun p => p.2)
  | _ => none

/-- JavaScript property assignment `obj[k] = v` for a key already present. -/
def setField (j : Json) (k : String) (v : Json) : Json :=
  match j with
  | Json.obj fs => Json.obj (fs.map (fun p => if p.1 == k then (p.1, v) else p))
  | _ => j

/-! ### The text repair heuristic (messageUtils.tsx lines 79-81 / 119-121)

`displayResponse.replace(/([a-z])([A-Z])/g, ...).replace(/([.!?])([A-Z])/g, ...)`
Each pattern is two adjacent characters replaced by the same two characters
with a space in between; since the second character of a match can never
start another match of the same pattern, the global replace is exactly the
insertion of a space between every adjacent pair matching the predicate. -/

def isLowerAZ (c : Char) : Bool := 'a' ≤ c && c ≤ 'z'

def isUpperAZ (c : Char) : Bool := 'A' ≤ c && c ≤ 'Z'

def isSentenceEnd (c : Char) : Bool := c = '.' || c = '!' || c = '?'

/-- Insert a space between every adjacent pair satisfying `p`. -/
def insertPairs (p : Char → Char → Bool) : List Char → List Char
  | [] => []
  | [c] => [c]
  | c1 :: c2 :: rest =>
    if p c1 c2 then c1 :: ' ' :: insertPairs p (c2 :: rest)
    else c1 :: insertPairs p (c2 :: rest)

/-- The spacing-repair heuristic: a space at every lowercase→uppercase
boundary, then a space after `.` `!` `?` followed by an uppercase letter. -/
def formatMessage (s : String) : String :=
  String.mk (insertPairs (fun a b => isSentenceEnd a && isUpperAZ b)
    (insertPairs (fun a b => isLowerAZ a && isUpperAZ b) s.data))

/-! ### The Chunk Reconstructor (messageUtils.tsx, handleStreamingChunk)

The module-level variables `accumulatedJsonString` / `isCollectingJson`
become an explicit state value. -/

structure AccState where
  buffer : String
  collecting : Bool
deriving DecidableEq

/-- The fresh accumulation state at module load. -/
def initAcc : AccState := ⟨"", false⟩

/-- Lines 71-96: the chunk equals the close-brace sentinel while collecting.
The buffer (with the sentinel already appended) is parsed; a truthy string
`displayResponse` is repaired and emitted (leaving the buffer in place,
since the early return skips the reset); any other outcome — parse failure,
missing, falsy or non-string `displayResponse` (the ensuing `.replace`
TypeError is caught by the inner catch) — resets the buffer and emits
nothing. -/
def closeEnvelope (buf : String) : AccState × Option String :=
  match jsonParse buf with
  | some j =>
    match jsonField j "displayResponse" with
    | some (Json.str s) =>
      if s = "" then (⟨"", false⟩, none)
      else (⟨buf, false⟩, some (formatMessage s))
    | _ => (⟨"", false⟩, none)
  | none => (⟨"", false⟩, none)

/-- handleStreamingChunk: returns the successor accumulation state and the
argument of the `updateOrAddBotMessage` call, if one is made. -/
def handleStreamingChunk (st : AccState) (chunk : String) :
    AccState × Option String :=
  if skipChunk chunk then (st, none)
  else if chunk = "\x7b" then (⟨"\x7b", true⟩, none)
  else if st.collecting then
    let buf := st.buffer ++ chunk
    if chunk = "\x7d" then closeEnvelope buf
    else (⟨buf, true⟩, none)
  else (st, some chunk)

/-- Run the reconstructor over a payload sequence, collecting every display
text emission in order. -/
def runChunks (st : AccState) : List String → AccState × List String
  | [] => (st, [])
  | c :: rest =>
    let step := handleStreamingChunk st c
    let tail := runChunks step.1 rest
    (tail.1, step.2.toList ++ tail.2)

/-- Observer: the envelopes successfully parsed at a close-brace sentinel
while running the reconstructor (the "completed envelopes" of a stream). -/
def completedEnvelopes (st : AccState) : List String → List Json
  | [] => []
  | c :: rest =>
    let here :=
      if ¬ skipChunk c ∧ c ≠ "\x7b" ∧ st.collecting ∧ c = "\x7d" then
        (jsonParse (st.buffer ++ c)).toList
      else []
    here ++ completedEnvelopes (handleStreamingChunk st c).1 rest

/-! ### The Message Accumulator (useMessageManager) -/

structure RecommendedProduct where
  productNumber : String
  formCode : String
  title : String
  description : String
  options : Option (List String) := none
deriving DecidableEq

structure Message where
  role : String
  content : String
  timestamp : String
  voiceSummary : Option String := none
  recommendedProducts : Option (List RecommendedProduct) := none
deriving DecidableEq

/-- updateOrAddBotMessage (useMessageManager.tsx lines 23-50).  The
`findIndex` predicate `msg.role === 'bot' && i === length - 1` selects the
last entry exactly when it is a bot message; the slice-based replacement
rewrites that entry with the fragment concatenated onto its content;
otherwise a fresh bot message is appended.  `ts` stands for the
`new Date().toISOString()` timestamp of the call. -/
def updateOrAddBotMessage (msgs : List Message) (content : String)
    (ts : String) : List Message :=
  match msgs.getLast? with
  | some m =>
    if m.role = "bot" then
      msgs.dropLast ++ [{ m with content := m.content ++ content }]
    else msgs ++ [⟨"bot", content, ts, none, none⟩]
  | none => msgs ++ [⟨"bot", content, ts, none, none⟩]

/-- Backward scan of updateLastBotMessageWithProducts, expressed on the
reversed list: replace the first bot message found. -/
def attachProductsRev (ps : List RecommendedProduct) :
    List Message → List Message
  | [] => []
  | m :: rest =>
    if m.role = "bot" then { m with recommendedProducts := some ps } :: rest
    else m :: attachProductsRev ps rest

/-- updateLastBotMessageWithProducts (product-aware useMessageManager
variant, lines 53-74): scan backward for the last bot message and set its
`recommendedProducts` to `products || []`; no-op when none exists. -/
def updateLastBotMessageWithProducts (msgs : List Message)
    (products : Option (List RecommendedProduct)) : List Message :=
  (attachProductsRev (products.getD []) msgs.reverse).reverse

/-- Feed a payload sequence through the reconstructor, routing each
emission into `updateOrAddBotMessage` (the wiring in processUserInput). -/
def feedStream (msgs : List Message) (st : AccState) (ts : String) :
    List String → List Message × AccState
  | [] => (msgs, st)
  | c :: rest =>
    let step := handleStreamingChunk st c
    let msgs1 := match step.2 with
      | some t => updateOrAddBotMessage msgs t ts
      | none => msgs
    feedStream msgs1 step.1 ts rest

/-- Concatenation of a list of strings in order. -/
def concatAll : List String → String
  | [] => ""
  | s :: rest => s ++ concatAll rest

/-- Whether the most recent message is a bot message. -/
def isLastBot (msgs : List Message) : Bool :=
  match msgs.getLast? with
  | some m => m.role = "bot"
  | none => false

/-! ### The Completion Reconciler (messageUtils.tsx, handleStreamingComplete)
and speech selection -/

/-- Modelled from the spec: `speechService.extractVoiceSummaryFromResponse`
(speechService.ts is not among the sources; its type declares
`(response) => string | null`).  Per §4.5/§6 the explicit `voiceSummary`
field of the response is the extracted speech text. -/
def extractVoiceSummaryFromResponse (j : Json) : Option String :=
  match jsonField j "voiceSummary" with
  | some (Json.str s) => some s
  | _ => none

/-- Lines 115-126: when `displayResponse` is a string containing no space
character (`.includes(' ')`) and longer than 15 UTF-16 units, it is
replaced by its repaired form; otherwise the envelope is untouched. -/
def formatEnvelope (j : Json) : Json :=
  match jsonField j "displayResponse" with
  | some (Json.str s) =>
    if ¬ s.data.contains ' ' ∧ s.length > 15 then
      setField j "displayResponse" (Json.str (formatMessage s))
    else j
  | _ => j

/-- handleStreamingComplete: given the accumulation state, the
`onStreamEnd` argument and the text-to-speech flag, returns the final
envelope value, the argument of the single `synthesizeSpeech` call (if
any), and the accumulation state afterwards.  On `null` nothing at all
happens; otherwise the envelope is formatted, the module-level
accumulation variables are reset, and — only when speech is enabled — a
truthy extracted voice summary is synthesized (there is no fallback to any
other text in this path). -/
def handleStreamingComplete (st : AccState) (json : Option Json)
    (tts : Bool) : Option Json × Option String × AccState :=
  match json with
  | none => (none, none, st)
  | some j =>
    let j2 := formatEnvelope j
    let synth :=
      if tts then
        match extractVoiceSummaryFromResponse j2 with
        | some vs => if vs = "" then none else some vs
        | none => none
      else none
    (some j2, synth, ⟨"", false⟩)

/-- Modelled from the spec: the voice-summary extraction applied to an
already-shaped Message of the non-streaming path (the carried-through
`voiceSummary` field, messageUtils.tsx lines 11-14). -/
def extractVoiceSummaryFromMessage (m : Message) : Option String :=
  m.voiceSummary

/-- playSpeechResponse (messageUtils.tsx lines 22-42): returns the argument
of the `synthesizeSpeech` call, if any.  When the flag is false nothing is
synthesized; otherwise a truthy voice summary wins, else a nonempty
string content. -/
def playSpeechResponse (m : Message) (tts : Bool) : Option String :=
  if ¬ tts then none
  else
    match extractVoiceSummaryFromMessage m with
    | some vs =>
      if vs = "" then (if m.content = "" then none else some m.content)
      else some vs
    | none => if m.content = "" then none else some m.content

/-! ### The streaming transport reader (botservice.ts, sendMessageToBot)

The SSE read loop: decoded text is buffered, split on newlines keeping the
trailing partial line, each complete `data:`-prefixed line yields a trimmed
nonempty payload passed to `onStreamChunk`, and a payload that begins with
an open brace and ends with a close brace updates `jsonResponse` if it
parses; after the loop `onStreamEnd` is invoked exactly once with
`jsonResponse`. -/

/-- Prepend one character to a (complete lines, trailing partial line)
decomposition. -/
def framerCons (c : Char) (p : List (List Char) × List Char) :
    List (List Char) × List Char :=
  if c = '\n' then ([] :: p.1, p.2)
  else
    match p.1 with
    | [] => ([], c :: p.2)
    | l :: ls => ((c :: l) :: ls, p.2)

/-- Split a character sequence into complete (newline-terminated) lines
plus the trailing partial line — the effect of `buffer.split('\n')`
followed by `buffer = lines.pop()`. -/
def framer : List Char → List (List Char) × List Char
  | [] => ([], [])
  | c :: rest => framerCons c (framer rest)

/-- Extract the payload of one protocol line: lines 65-67, a `data:`
prefix followed by a nonempty trimmed remainder. -/
def dataPayload (line : List Char) : Option String :=
  if line.take 5 = "data:".data then
    let d := jsTrim (line.drop 5)
    if d = [] then none else some (String.mk d)
  else none

/-- Lines 72-79: a payload that starts with an open brace and ends with a
close brace replaces `jsonResponse` when it parses. -/
def captureJson (acc : Option Json) (p : String) : Option Json :=
  if p.data.head? = some '\x7b' ∧ p.data.getLast? = some '\x7d' then
    match jsonParse p with
    | some j => some j
    | none => acc
  else acc

structure StreamLoopState where
  buffer : List Char
  calls : List String
  jsonResponse : Option Json

/-- Handle one complete line inside the read loop (lines 64-82). -/
def lineStep (st : StreamLoopState) (line : List Char) : StreamLoopState :=
  match dataPayload line with
  | some p =>
    { st with calls := st.calls ++ [p],
              jsonResponse := captureJson st.jsonResponse p }
  | none => st

/-- One `reader.read()` iteration (lines 54-83): append the decoded chunk
to the buffer, keep the trailing partial line, process the complete
lines. -/
def readStep (st : StreamLoopState) (chunk : String) : StreamLoopState :=
  let p := framer (st.buffer ++ chunk.data)
  p.1.foldl lineStep { st with buffer := p.2 }

/-- The whole streaming branch of sendMessageToBot on a completed stream:
the ordered `onStreamChunk` arguments and the single `onStreamEnd`
argument. -/
def sendMessageToBotStream (chunks : List String) :
    List String × Option Json :=
  let st := chunks.foldl readStep ⟨[], [], none⟩
  (st.calls, st.jsonResponse)

/-- The payloads of a completed stream, computed in one pass over the
concatenated stream text: the complete lines, filtered by `dataPayload`. -/
def payloadsOf (text : List Char) : List String :=
  (framer text).1.filterMap dataPayload

/-- The last payload that is itself a complete JSON object. -/
def lastCompleteJson (ps : List String) : Option Json :=
  ps.foldl captureJson none

/-! ### Claim theorems -/

/-- Claim C1: for the payload sequence open-brace,
`"displayResponse":"CleanDishwasherSteps"`, close-brace delivered to the
reconstructor starting in TEXT mode, exactly one display-text event is
emitted, carrying the repaired string "Clean Dishwasher Steps", and none
of the three raw payloads is ever forwarded as display text. -/
theorem reconstructor_repairs_fragmented_envelope :
    (runChunks initAcc
        ["\x7b", "\"displayResponse\":\"CleanDishwasherSteps\"", "\x7d"]).2
      = ["Clean Dishwasher Steps"] ∧
    "\x7b" ∉ (runChunks initAcc
        ["\x7b", "\"displayResponse\":\"CleanDishwasherSteps\"", "\x7d"]).2 ∧
    "\"displayResponse\":\"CleanDishwasherSteps\"" ∉ (runChunks initAcc
        ["\x7b", "\"displayResponse\":\"CleanDishwasherSteps\"", "\x7d"]).2 ∧
    "\x7d" ∉ (runChunks initAcc
        ["\x7b", "\"displayResponse\":\"CleanDishwasherSteps\"", "\x7d"]).2 := by
  decide

/-- Claim C2, counterexample: the envelope `"displayResponse":"aB"` has
length 2 ≤ 15, so the claim demands the text be emitted unmodified; the
chunk path applies the repair unconditionally and emits "a B". -/
theorem spacing_repair_unconditional_counterexample :
    (runChunks initAcc ["\x7b", "\"displayResponse\":\"aB\"", "\x7d"]).2
      = ["a B"] ∧
    ("aB" : String).length ≤ 15 ∧ ("a B" : String) ≠ "aB" := by
  decide

/-- Claim C3, counterexample: when the envelope arrives fragmented across
three `data:` lines, the reconstructor completes (successfully parses) an
envelope, yet `onStreamEnd` receives null, because the stream reader only
captures single lines that both start with an open brace and end with a
close brace. -/
theorem stream_end_fragmented_envelope_counterexample :
    (sendMessageToBotStream
        ["data: \x7b\ndata: \"displayResponse\":\"someLongCamelCaseText\"\ndata: \x7d\n"]).2
      = none ∧
    (completedEnvelopes initAcc
        (sendMessageToBotStream
          ["data: \x7b\ndata: \"displayResponse\":\"someLongCamelCaseText\"\ndata: \x7d\n"]).1).length
      = 1 :=
  ⟨rfl, rfl⟩

/-- Claim C4, counterexample: the payload sequence `["a", " ", "b"]`
contains no brace sentinel, yet the whitespace-only payload is dropped by
the reconstructor's skip guard, so the final bot-message content is "ab",
not the concatenation "a b". -/
theorem whitespace_payload_dropped_counterexample :
    (feedStream [] initAcc "t0" ["a", " ", "b"]).1
      = [⟨"bot", "ab", "t0", none, none⟩] ∧
    concatAll ["a", " ", "b"] = "a b" ∧ ("ab" : String) ≠ "a b" := by
  decide

/-- Claim C5: the accumulation state leaks across streams.  A prior stream
that ended mid-collection (after the open sentinel) leaves the module in
COLLECTING mode with the stale buffer; completing that stream with null
does not reset it; the next stream's payload "hello" is then swallowed
into the stale buffer instead of being emitted as display text, unlike a
fresh stream. -/
theorem stale_buffer_leaks_across_streams :
    (runChunks initAcc ["\x7b"]).1 = ⟨"\x7b", true⟩ ∧
    handleStreamingComplete ⟨"\x7b", true⟩ none true
      = (none, none, ⟨"\x7b", true⟩) ∧
    (runChunks ⟨"\x7b", true⟩ ["hello"]).2 = [] ∧
    (runChunks initAcc ["hello"]).2 = ["hello"] :=
  ⟨by decide, rfl, by decide, by decide⟩

/-- Claim C8, counterexample: at stream completion with speech enabled and
a non-null envelope that has display content but no voice summary, the
claim's priority demands the display content be synthesized; the code
synthesizes nothing (there is no content fallback in the completion
path). -/
theorem completion_no_content_fallback_counterexample :
    (handleStreamingComplete initAcc
        (some (Json.obj [("displayResponse", Json.str "Hello there")]))
        true).2.1 = none ∧
    jsonField (Json.obj [("displayResponse", Json.str "Hello there")])
        "displayResponse" = some (Json.str "Hello there") ∧
    ("Hello there" : String) ≠ "" :=
  ⟨rfl, rfl, by decide⟩

/-- Claim C9, counterexample: an open-brace payload received while already
in COLLECTING_ENVELOPE restarts the collection without any terminator
having been consumed: the state after open, fragment, open equals the
state after a single open, and the restarted collection even completes
successfully although the first envelope was never terminated. -/
theorem open_brace_restarts_collection_counterexample :
    (runChunks initAcc ["\x7b", "\"x\":\"y\"", "\x7b"]).1 = ⟨"\x7b", true⟩ ∧
    (runChunks initAcc ["\x7b", "\"x\":\"y\"", "\x7b",
        "\"displayResponse\":\"longCamelCaseExample\"", "\x7d"]).2
      = ["long Camel Case Example"] := by
  decide

/-! ### Supporting lemmas -/

theorem jsTrim_of_all_ws (l : List Char) (h : l.all isJsWs = true) :
    jsTrim l = [] := by
  have h1 : l.dropWhile isJsWs = [] := by
    rw [List.dropWhile_eq_nil_iff]
    exact fun x hx => (List.all_eq_true.mp h) x hx
  simp [jsTrim, h1]

theorem skipChunk_of_all_ws (chunk : String) (h : chunk.data.all isJsWs = true) :
    skipChunk chunk = true := by
  have h2 : jsTrimS chunk = "" := by
    simp [jsTrimS, jsTrim_of_all_ws _ h]
  simp [skipChunk, h2]

theorem closeEnvelope_not_collecting (buf : String) :
    (closeEnvelope buf).1.collecting = false := by
  unfold closeEnvelope
  repeat' split
  all_goals rfl

/-- Claim C10: a payload that is empty or consists only of whitespace is
skipped outright: no display-text event, no state change, in either mode —
in particular it is never appended to a buffer being collected. -/
theorem whitespace_chunk_is_noop (st : AccState) (chunk : String)
    (h : chunk.data.all isJsWs = true) :
    handleStreamingChunk st chunk = (st, none) := by
  unfold handleStreamingChunk
  simp [skipChunk_of_all_ws chunk h]

/-- Witness for C10: the whitespace payload " \t" leaves even a
mid-collection state untouched and emits nothing. -/
theorem whitespace_chunk_is_noop_witness :
    handleStreamingChunk ⟨"\x7b\"a", true⟩ " \t" = (⟨"\x7b\"a", true⟩, none) :=
  whitespace_chunk_is_noop ⟨"\x7b\"a", true⟩ " \t" (by decide)

/-- Claim C6: when the buffer fails to parse at the close-brace sentinel,
the reconstructor emits nothing, discards the buffer and returns to TEXT
mode — indeed to exactly the pristine initial state, so every subsequent
payload is processed as in a fresh stream; the raw envelope text is never
forwarded as display text. -/
theorem envelope_parse_failure_recovers (st : AccState)
    (hc : st.collecting = true)
    (hp : jsonParse (st.buffer ++ "\x7d") = none) :
    handleStreamingChunk st "\x7d" = (initAcc, none) := by
  unfold handleStreamingChunk
  have h1 : skipChunk "\x7d" = false := by decide
  have h2 : ("\x7d" : String) ≠ "\x7b" := by decide
  simp [h1, h2, hc, closeEnvelope, hp, initAcc]

/-- Witness for C6: the malformed buffer content `"a"` (no colon or value)
fails to parse at the close sentinel and the state is reset. -/
theorem envelope_parse_failure_recovers_witness :
    handleStreamingChunk ⟨"\x7b\"a\"", true⟩ "\x7d" = (initAcc, none) :=
  envelope_parse_failure_recovers ⟨"\x7b\"a\"", true⟩ rfl rfl

/-- Claim C9, amended: the mode only ever changes TEXT→COLLECTING_ENVELOPE
on an open-brace sentinel payload and COLLECTING_ENVELOPE→TEXT on a
close-brace payload; however, an open-brace payload received while already
collecting restarts the collection buffer (discarding the partial
envelope) while remaining in COLLECTING mode. -/
theorem mode_transition_discipline (st : AccState) (chunk : String) :
    ((handleStreamingChunk st chunk).1.collecting = true →
      st.collecting = false → chunk = "\x7b") ∧
    ((handleStreamingChunk st chunk).1.collecting = false →
      st.collecting = true → chunk = "\x7d") ∧
    (st.collecting = true → chunk = "\x7b" →
      (handleStreamingChunk st chunk).1 = ⟨"\x7b", true⟩) := by
  by_cases h1 : skipChunk chunk = true
  · refine ⟨?_, ?_, ?_⟩ <;> simp [handleStreamingChunk, h1]
    · intro ha hb; rw [ha] at hb; exact absurd hb (by decide)
    · intro ha hb; rw [ha] at hb; exact absurd hb (by decide)
    · intro _ hb; rw [hb] at h1; exact absurd h1 (by decide)
  · rw [Bool.not_eq_true] at h1
    by_cases h2 : chunk = "\x7b"
    · subst h2
      refine ⟨fun _ _ => rfl, ?_, fun _ _ => by simp [handleStreamingChunk, h1]⟩
      intro ha
      simp [handleStreamingChunk, h1] at ha
    · by_cases h3 : st.collecting = true
      · by_cases h4 : chunk = "\x7d"
        · subst h4
          refine ⟨?_, fun _ _ => rfl, fun _ hb => absurd hb h2⟩
          intro _ hb; rw [h3] at hb; exact absurd hb (by decide)
        · refine ⟨?_, ?_, fun _ hb => absurd hb h2⟩
          · intro _ hb; rw [h3] at hb; exact absurd hb (by decide)
          · intro ha
            simp [handleStreamingChunk, h1, h2, h3, h4] at ha
      · rw [Bool.not_eq_true] at h3
        refine ⟨?_, ?_, fun hb _ => absurd hb (by simp [h3])⟩
        · intro ha hb
          simp [handleStreamingChunk, h1, h2, h3] at ha
        · intro _ hb; rw [h3] at hb; exact absurd hb (by decide)

/-- Witness for C9: an open-brace payload while collecting resets the
buffer to the lone sentinel, staying in COLLECTING mode. -/
theorem mode_transition_discipline_witness :
    (handleStreamingChunk ⟨"x", true⟩ "\x7b").1 = ⟨"\x7b", true⟩ :=
  (mode_transition_discipline ⟨"x", true⟩ "\x7b").2.2 rfl rfl


theorem find?_map_setKey (l : List (String × Json)) (k : String) (v : Json) :
    (l.map (fun p => if p.1 == k then (p.1, v) else p)).find?
        (fun p => p.1 == k)
      = (l.find? (fun p => p.1 == k)).map (fun p => (p.1, v)) := by
  induction l with
  | nil => rfl
  | cons a t ih =>
    rw [List.map_cons]
    by_cases h : (a.1 == k) = true
    · rw [if_pos h]
      simp only [List.find?_cons, h]
      rfl
    · rw [if_neg h]
      rw [Bool.not_eq_true] at h
      simp only [List.find?_cons, h]
      exact ih

theorem find?_map_setKey_other (l : List (String × Json)) (k k2 : String)
    (v : Json) (hne : k ≠ k2) :
    (l.map (fun p => if p.1 == k then (p.1, v) else p)).find?
        (fun p => p.1 == k2)
      = l.find? (fun p => p.1 == k2) := by
  induction l with
  | nil => rfl
  | cons a t ih =>
    rw [List.map_cons]
    by_cases h : (a.1 == k2) = true
    · have ha : a.1 = k2 := eq_of_beq h
      have hk : ¬ ((a.1 == k) = true) := by
        rw [ha]
        intro hh
        exact hne (eq_of_beq hh).symm
      rw [if_neg hk]
      simp only [List.find?_cons, h]
    · rw [Bool.not_eq_true] at h
      by_cases hk : (a.1 == k) = true
      · rw [if_pos hk]
        simp only [List.find?_cons, h]
        exact ih
      · rw [if_neg hk]
        simp only [List.find?_cons, h]
        exact ih

theorem jsonField_setField_same (j : Json) (k : String) (v w : Json)
    (h : jsonField j k = some w) :
    jsonField (setField j k v) k = some v := by
  cases j with
  | obj fs =>
    simp only [jsonField, setField]
    rw [← List.map_reverse, find?_map_setKey]
    cases hf : fs.reverse.find? (fun p => p.1 == k) with
    | none =>
      simp only [jsonField] at h
      rw [hf] at h
      simp at h
    | some p => simp
  | null => simp [jsonField] at h
  | bool b => simp [jsonField] at h
  | num lit => simp [jsonField] at h
  | str s => simp [jsonField] at h
  | arr es => simp [jsonField] at h

theorem jsonField_setField_other (j : Json) (k k2 : String) (v : Json)
    (hne : k ≠ k2) :
    jsonField (setField j k v) k2 = jsonField j k2 := by
  cases j with
  | obj fs =>
    simp only [jsonField, setField]
    rw [← List.map_reverse, find?_map_setKey_other _ _ _ _ hne]
  | null => rfl
  | bool b => rfl
  | num lit => rfl
  | str s => rfl
  | arr es => rfl

/-- Claim C2, amended: the guard "contains no space character (`' '`) and
length > 15" controls the repair only in the completion path
(handleStreamingComplete); when it holds the stored `displayResponse` is
replaced by its repaired form and otherwise the envelope is left entirely
unmodified; in the chunk path (handleStreamingChunk) the repair is applied
unconditionally to every successfully parsed envelope with a truthy string
`displayResponse`. -/
theorem spacing_repair_conditions (st : AccState) (j : Json) (s : String)
    (tts : Bool) :
    (st.collecting = true → jsonParse (st.buffer ++ "\x7d") = some j →
      jsonField j "displayResponse" = some (Json.str s) → s ≠ "" →
      (handleStreamingChunk st "\x7d").2 = some (formatMessage s)) ∧
    ((handleStreamingComplete st (some j) tts).1 = some (formatEnvelope j)) ∧
    (jsonField j "displayResponse" = some (Json.str s) →
      s.data.contains ' ' = false → s.length > 15 →
      jsonField (formatEnvelope j) "displayResponse"
        = some (Json.str (formatMessage s))) ∧
    (jsonField j "displayResponse" = some (Json.str s) →
      (s.data.contains ' ' = true ∨ s.length ≤ 15) →
      formatEnvelope j = j) := by
  refine ⟨?_, rfl, ?_, ?_⟩
  · intro hc hp hf hs
    have h1 : skipChunk "\x7d" = false := by decide
    have h2 : ("\x7d" : String) ≠ "\x7b" := by decide
    simp [handleStreamingChunk, h1, h2, hc, closeEnvelope, hp, hf, hs]
  · intro hf hsp hlen
    have hcond : (¬ s.data.contains ' ' = true ∧ s.length > 15) :=
      ⟨by rw [hsp]; simp, hlen⟩
    simp only [formatEnvelope, hf]
    rw [if_pos hcond]
    exact jsonField_setField_same j "displayResponse" _ _ hf
  · intro hf hcond
    simp only [formatEnvelope, hf]
    rw [if_neg]
    intro hand
    rcases hcond with hc1 | hc2
    · exact hand.1 hc1
    · omega

/-- Witness for C2: the chunk path repairs the two-character "aB" even
though it is far below the threshold, and the completion path repairs a
spaceless eighteen-character string. -/
theorem spacing_repair_conditions_witness :
    (handleStreamingChunk ⟨"\x7b\"displayResponse\":\"aB\"", true⟩ "\x7d").2
        = some (formatMessage "aB") ∧
    jsonField
        (formatEnvelope
          (Json.obj [("displayResponse", Json.str "abcdefghIjklmnopqr")]))
        "displayResponse"
      = some (Json.str (formatMessage "abcdefghIjklmnopqr")) :=
  ⟨(spacing_repair_conditions ⟨"\x7b\"displayResponse\":\"aB\"", true⟩
      (Json.obj [("displayResponse", Json.str "aB")]) "aB" true).1
      rfl rfl rfl (by decide),
   (spacing_repair_conditions initAcc
      (Json.obj [("displayResponse", Json.str "abcdefghIjklmnopqr")])
      "abcdefghIjklmnopqr" true).2.2.1 rfl (by decide) (by decide)⟩

theorem attachProductsRev_no_bot (ps : List RecommendedProduct) :
    ∀ l : List Message, (∀ m ∈ l, m.role ≠ "bot") →
      attachProductsRev ps l = l := by
  intro l
  induction l with
  | nil => intro _; rfl
  | cons a t ih =>
    intro h
    have ha : a.role ≠ "bot" := h a (List.mem_cons_self a t)
    simp only [attachProductsRev, if_neg ha]
    rw [ih (fun m hm => h m (List.mem_cons_of_mem a hm))]

theorem attachProductsRev_found (ps : List RecommendedProduct)
    (m : Message) (hm : m.role = "bot") :
    ∀ (a b : List Message), (∀ x ∈ a, x.role ≠ "bot") →
      attachProductsRev ps (a ++ m :: b)
        = a ++ { m with recommendedProducts := some ps } :: b := by
  intro a
  induction a with
  | nil =>
    intro b _
    simp only [List.nil_append, attachProductsRev, if_pos hm]
  | cons x t ih =>
    intro b h
    have hx : x.role ≠ "bot" := h x (List.mem_cons_self x t)
    simp only [List.cons_append, attachProductsRev, if_neg hx, List.append_eq]
    rw [ih b (fun y hy => h y (List.mem_cons_of_mem x hy))]

/-- Claim C7: attaching a product list from a completed envelope rewrites
exactly the most recent bot message (located by backward scan), setting
its `recommendedProducts` to exactly the given list while every other
field of that message and every other message is unchanged; when the list
holds no bot message the operation is the identity. -/
theorem attach_products_last_bot (msgs pre post : List Message)
    (m : Message) (ps : List RecommendedProduct) :
    ((∀ x ∈ msgs, x.role ≠ "bot") →
      updateLastBotMessageWithProducts msgs (some ps) = msgs) ∧
    (m.role = "bot" → (∀ x ∈ post, x.role ≠ "bot") →
      updateLastBotMessageWithProducts (pre ++ m :: post) (some ps)
        = pre ++ { m with recommendedProducts := some ps } :: post) := by
  constructor
  · intro h
    unfold updateLastBotMessageWithProducts
    rw [attachProductsRev_no_bot _ _ (fun x hx => h x (List.mem_reverse.mp hx))]
    exact List.reverse_reverse msgs
  · intro hm hpost
    unfold updateLastBotMessageWithProducts
    have hrev : (pre ++ m :: post).reverse = post.reverse ++ m :: pre.reverse := by
      simp [List.reverse_append]
    rw [hrev]
    rw [attachProductsRev_found ((some ps : Option _).getD []) m hm
      post.reverse pre.reverse
      (fun x hx => hpost x (List.mem_reverse.mp hx))]
    simp [List.reverse_append]

/-- Witness for C7: with messages user, bot, user the middle bot message
gets the two products attached and everything else stays intact. -/
theorem attach_products_last_bot_witness :
    updateLastBotMessageWithProducts
        [⟨"user", "hi", "t1", none, none⟩, ⟨"bot", "yo", "t2", none, none⟩,
         ⟨"user", "more", "t3", none, none⟩]
        (some [⟨"200", "HOT", "Latte", "espresso and milk", none⟩,
               ⟨"201", "ICED", "Mocha", "chocolate espresso", none⟩])
      = [⟨"user", "hi", "t1", none, none⟩,
         ⟨"bot", "yo", "t2", none,
          some [⟨"200", "HOT", "Latte", "espresso and milk", none⟩,
                ⟨"201", "ICED", "Mocha", "chocolate espresso", none⟩]⟩,
         ⟨"user", "more", "t3", none, none⟩] := by
  have h := (attach_products_last_bot
      [⟨"user", "hi", "t1", none, none⟩]
      [⟨"user", "hi", "t1", none, none⟩]
      [⟨"user", "more", "t3", none, none⟩]
      ⟨"bot", "yo", "t2", none, none⟩
      [⟨"200", "HOT", "Latte", "espresso and milk", none⟩,
       ⟨"201", "ICED", "Mocha", "chocolate espresso", none⟩]).2
      rfl (by decide)
  exact h

/-- Claim C8, amended: at stream completion the synthesized text is the
envelope's `voiceSummary` when present and nonempty, and nothing
otherwise — the completion path has no fallback to display content (that
fallback exists only in playSpeechResponse, used by the non-streaming
path); and whenever the speech-enable flag is false, nothing is ever
synthesized in either path.  The formatting step never disturbs the
`voiceSummary` field. -/
theorem completion_speech_selection (st : AccState) (j : Json)
    (json : Option Json) (m : Message) (tts : Bool) :
    ((handleStreamingComplete st json false).2.1 = none) ∧
    (playSpeechResponse m false = none) ∧
    (extractVoiceSummaryFromResponse (formatEnvelope j)
        = extractVoiceSummaryFromResponse j) ∧
    (∀ s, (handleStreamingComplete st (some j) tts).2.1 = some s →
      tts = true ∧ extractVoiceSummaryFromResponse j = some s ∧ s ≠ "") ∧
    (∀ vs, extractVoiceSummaryFromResponse j = some vs → vs ≠ "" →
      tts = true → (handleStreamingComplete st (some j) tts).2.1 = some vs) ∧
    (m.voiceSummary = none → m.content ≠ "" →
      playSpeechResponse m true = some m.content) := by
  have hpres : extractVoiceSummaryFromResponse (formatEnvelope j)
      = extractVoiceSummaryFromResponse j := by
    unfold formatEnvelope
    split
    · split
      · unfold extractVoiceSummaryFromResponse
        rw [jsonField_setField_other _ _ _ _ (by decide)]
      · rfl
    · rfl
  refine ⟨?_, ?_, hpres, ?_, ?_, ?_⟩
  · cases json <;> rfl
  · rfl
  · intro s hs
    simp only [handleStreamingComplete] at hs
    cases tts with
    | false => simp at hs
    | true =>
      rw [hpres] at hs
      cases hv : extractVoiceSummaryFromResponse j with
      | none => rw [hv] at hs; simp at hs
      | some vs =>
        rw [hv] at hs
        simp at hs
        obtain ⟨he, hvs⟩ := hs
        subst hvs
        exact ⟨rfl, rfl, he⟩
  · intro vs hv hne htts
    subst htts
    simp only [handleStreamingComplete, hpres, hv]
    simp [hne]
  · intro h1 h2
    simp only [playSpeechResponse, extractVoiceSummaryFromMessage, h1]
    simp [h2]

/-- Witness for C8: a truthy voice summary is synthesized at completion,
and the non-streaming path falls back to the message content. -/
theorem completion_speech_selection_witness :
    (handleStreamingComplete initAcc
        (some (Json.obj [("voiceSummary", Json.str "Hi there")])) true).2.1
      = some "Hi there" ∧
    playSpeechResponse ⟨"bot", "Latte time", "t4", none, none⟩ true
      = some "Latte time" :=
  ⟨(completion_speech_selection initAcc
      (Json.obj [("voiceSummary", Json.str "Hi there")]) none
      ⟨"bot", "", "t", none, none⟩ true).2.2.2.2.1 "Hi there" rfl
      (by decide) rfl,
   (completion_speech_selection initAcc Json.null none
      ⟨"bot", "Latte time", "t4", none, none⟩ true).2.2.2.2.2 rfl
      (by decide)⟩

theorem text_chunk_passthrough (st : AccState) (p : String)
    (h1 : skipChunk p = false) (h2 : p ≠ "\x7b")
    (h3 : st.collecting = false) :
    handleStreamingChunk st p = (st, some p) := by
  simp [handleStreamingChunk, h1, h2, h3]

theorem updateOrAdd_onto_bot (pre : List Message) (m : Message)
    (c ts : String) (hm : m.role = "bot") :
    updateOrAddBotMessage (pre ++ [m]) c ts
      = pre ++ [{ m with content := m.content ++ c }] := by
  simp only [updateOrAddBotMessage, List.getLast?_concat]
  rw [if_pos hm]
  rw [List.dropLast_concat]

theorem updateOrAdd_fresh (msgs : List Message) (c ts : String)
    (h : isLastBot msgs = false) :
    updateOrAddBotMessage msgs c ts = msgs ++ [⟨"bot", c, ts, none, none⟩] := by
  cases hl : msgs.getLast? with
  | none => simp [updateOrAddBotMessage, hl]
  | some m =>
    have hrole : ¬ (m.role = "bot") := by
      have h2 := h
      simp [isLastBot, hl] at h2
      exact h2
    simp [updateOrAddBotMessage, hl, hrole]

theorem feedStream_onto_bot (ts : String) :
    ∀ (payloads : List String) (pre : List Message) (m : Message),
      m.role = "bot" →
      (∀ p ∈ payloads, skipChunk p = false ∧ p ≠ "\x7b") →
      feedStream (pre ++ [m]) initAcc ts payloads
        = (pre ++ [{ m with content := m.content ++ concatAll payloads }],
           initAcc) := by
  intro payloads
  induction payloads with
  | nil =>
    intro pre m hm hp
    simp [feedStream, concatAll]
  | cons p rest ih =>
    intro pre m hm hp
    have hp1 := hp p (List.mem_cons_self p rest)
    have hstep := text_chunk_passthrough initAcc p hp1.1 hp1.2 rfl
    simp only [feedStream, hstep]
    rw [updateOrAdd_onto_bot pre m p ts hm]
    rw [ih pre { m with content := m.content ++ p } hm
      (fun q hq => hp q (List.mem_cons_of_mem p hq))]
    simp [concatAll, String.append_assoc]

/-- Claim C4, amended: for every payload sequence containing no brace
sentinel and no empty-or-whitespace-only payload (the reconstructor drops
the latter), feeding the sequence through the reconstructor into the
accumulator appends one bot message whose content is the concatenation of
all payloads in arrival order; `updateOrAddBotMessage` concatenates onto
the most recent message exactly when it is a bot message and otherwise
appends a fresh bot message carrying the fragment. -/
theorem text_mode_concatenation (payloads : List String)
    (msgs pre : List Message) (m : Message) (c ts : String) :
    ((∀ p ∈ payloads, skipChunk p = false ∧ p ≠ "\x7b") →
      isLastBot msgs = false → payloads ≠ [] →
      (feedStream msgs initAcc ts payloads).1
        = msgs ++ [⟨"bot", concatAll payloads, ts, none, none⟩]) ∧
    (m.role = "bot" →
      updateOrAddBotMessage (pre ++ [m]) c ts
        = pre ++ [{ m with content := m.content ++ c }]) ∧
    (isLastBot msgs = false →
      updateOrAddBotMessage msgs c ts
        = msgs ++ [⟨"bot", c, ts, none, none⟩]) := by
  refine ⟨?_, fun hm => updateOrAdd_onto_bot pre m c ts hm,
    fun hl => updateOrAdd_fresh msgs c ts hl⟩
  intro hgood hlast hne
  cases payloads with
  | nil => exact absurd rfl hne
  | cons p rest =>
    have hp1 := hgood p (List.mem_cons_self p rest)
    have hstep := text_chunk_passthrough initAcc p hp1.1 hp1.2 rfl
    simp only [feedStream, hstep]
    rw [updateOrAdd_fresh msgs p ts hlast]
    rw [feedStream_onto_bot ts rest msgs ⟨"bot", p, ts, none, none⟩ rfl
      (fun q hq => hgood q (List.mem_cons_of_mem p hq))]
    rfl

/-- Witness for C4: three text payloads accumulate into a single bot
message holding their concatenation. -/
theorem text_mode_concatenation_witness :
    (feedStream [⟨"user", "q", "t0", none, none⟩] initAcc "t1"
        ["Hello ", "wor", "ld!"]).1
      = [⟨"user", "q", "t0", none, none⟩,
         ⟨"bot", "Hello world!", "t1", none, none⟩] := by
  have h := (text_mode_concatenation ["Hello ", "wor", "ld!"]
      [⟨"user", "q", "t0", none, none⟩] [] ⟨"bot", "", "t", none, none⟩
      "" "t1").1 (by decide) (by decide) (by decide)
  exact h

/-- Prepend a partial-line prefix onto the first of a list of lines. -/
def prependFirst (p : List Char) : List (List Char) → List (List Char)
  | [] => []
  | l :: ls => (p ++ l) :: ls

theorem prependFirst_nil (ls : List (List Char)) : prependFirst [] ls = ls := by
  cases ls <;> simp [prependFirst]

theorem framer_no_newline (l : List Char) (h : ∀ c ∈ l, c ≠ '\n') :
    framer l = ([], l) := by
  induction l with
  | nil => rfl
  | cons c rest ih =>
    have hc : c ≠ '\n' := h c (List.mem_cons_self c rest)
    show framerCons c (framer rest) = ([], c :: rest)
    rw [ih (fun x hx => h x (List.mem_cons_of_mem c hx))]
    simp [framerCons, hc]

theorem framer_trail_no_newline (l : List Char) :
    ∀ c ∈ (framer l).2, c ≠ '\n' := by
  induction l with
  | nil => intro c hc; simp [framer] at hc
  | cons a rest ih =>
    intro c hc
    by_cases ha : a = '\n'
    · refine ih c ?_
      simpa [framer, framerCons, ha] using hc
    · cases hp : (framer rest).1 with
      | nil =>
        have hc2 : c ∈ a :: (framer rest).2 := by
          simpa [framer, framerCons, ha, hp] using hc
        rcases List.mem_cons.mp hc2 with h1 | h2
        · rw [h1]; exact ha
        · exact ih c h2
      | cons l2 ls2 =>
        refine ih c ?_
        simpa [framer, framerCons, ha, hp] using hc

theorem framerCons_fst_nl (p : List (List Char) × List Char) :
    (framerCons '\n' p).1 = [] :: p.1 := by
  simp [framerCons]

theorem framerCons_snd_nl (p : List (List Char) × List Char) :
    (framerCons '\n' p).2 = p.2 := by
  simp [framerCons]

theorem framerCons_fst_nil (c : Char) (hc : c ≠ '\n')
    (p : List (List Char) × List Char) (h : p.1 = []) :
    (framerCons c p).1 = [] := by
  simp [framerCons, hc, h]

theorem framerCons_snd_nil (c : Char) (hc : c ≠ '\n')
    (p : List (List Char) × List Char) (h : p.1 = []) :
    (framerCons c p).2 = c :: p.2 := by
  simp [framerCons, hc, h]

theorem framerCons_fst_cons (c : Char) (hc : c ≠ '\n')
    (p : List (List Char) × List Char) (l : List Char)
    (ls : List (List Char)) (h : p.1 = l :: ls) :
    (framerCons c p).1 = (c :: l) :: ls := by
  simp [framerCons, hc, h]

theorem framerCons_snd_cons (c : Char) (hc : c ≠ '\n')
    (p : List (List Char) × List Char) (l : List Char)
    (ls : List (List Char)) (h : p.1 = l :: ls) :
    (framerCons c p).2 = p.2 := by
  simp [framerCons, hc, h]

theorem framer_append (xs ys : List Char) :
    (framer (xs ++ ys)).1
        = (framer xs).1 ++ prependFirst (framer xs).2 (framer ys).1 ∧
    (framer (xs ++ ys)).2
        = (if (framer ys).1 = [] then (framer xs).2 ++ (framer ys).2
           else (framer ys).2) := by
  induction xs with
  | nil =>
    constructor
    · simp [framer, prependFirst_nil]
    · simp only [List.nil_append, framer]
      split
      · simp
      · rfl
  | cons c xs ih =>
    obtain ⟨ih1, ih2⟩ := ih
    have hfc : framer (c :: xs) = framerCons c (framer xs) := rfl
    have hfcy : framer (c :: xs ++ ys) = framerCons c (framer (xs ++ ys)) := rfl
    by_cases hc : c = '\n'
    · subst hc
      rw [hfc, hfcy]
      rw [framerCons_fst_nl, framerCons_snd_nl,
          framerCons_fst_nl, framerCons_snd_nl]
      rw [ih1, ih2]
      simp
    · cases hA : (framer xs).1 with
      | cons l A2 =>
        have hXY : (framer (xs ++ ys)).1
            = l :: (A2 ++ prependFirst (framer xs).2 (framer ys).1) := by
          rw [ih1, hA]; simp
        rw [hfc, hfcy]
        rw [framerCons_fst_cons c hc _ _ _ hXY,
            framerCons_fst_cons c hc _ _ _ hA,
            framerCons_snd_cons c hc _ _ _ hXY,
            framerCons_snd_cons c hc _ _ _ hA]
        rw [ih2]
        constructor
        · simp
        · rfl
      | nil =>
        cases hB : (framer ys).1 with
        | nil =>
          have hXY : (framer (xs ++ ys)).1 = [] := by
            rw [ih1, hA, hB]; simp [prependFirst]
          rw [hfc, hfcy]
          rw [framerCons_fst_nil c hc _ hXY,
              framerCons_fst_nil c hc _ hA,
              framerCons_snd_nil c hc _ hXY,
              framerCons_snd_nil c hc _ hA]
          rw [ih2, hB]
          constructor
          · simp [prependFirst]
          · simp
        | cons b B2 =>
          have hXY : (framer (xs ++ ys)).1
              = ((framer xs).2 ++ b) :: B2 := by
            rw [ih1, hA, hB]; simp [prependFirst]
          rw [hfc, hfcy]
          rw [framerCons_fst_cons c hc _ _ _ hXY,
              framerCons_fst_nil c hc _ hA,
              framerCons_snd_cons c hc _ _ _ hXY,
              framerCons_snd_nil c hc _ hA]
          rw [ih2, hB]
          constructor
          · simp [prependFirst]
          · simp

theorem foldl_lineStep (lines : List (List Char)) :
    ∀ st : StreamLoopState,
      lines.foldl lineStep st
        = ⟨st.buffer, st.calls ++ lines.filterMap dataPayload,
           (lines.filterMap dataPayload).foldl captureJson st.jsonResponse⟩ := by
  induction lines with
  | nil => intro st; simp
  | cons l rest ih =>
    intro st
    cases hd : dataPayload l with
    | none =>
      simp only [List.foldl_cons, List.filterMap_cons, hd]
      rw [show lineStep st l = st by simp [lineStep, hd]]
      exact ih st
    | some p =>
      simp only [List.foldl_cons, List.filterMap_cons, hd]
      rw [show lineStep st l
          = ⟨st.buffer, st.calls ++ [p], captureJson st.jsonResponse p⟩ by
        simp [lineStep, hd]]
      rw [ih]
      simp

theorem readLoop_correct (chunks : List String) :
    ∀ st : StreamLoopState, (∀ c ∈ st.buffer, c ≠ '\n') →
      chunks.foldl readStep st
        = ⟨(framer (st.buffer ++ (concatAll chunks).data)).2,
           st.calls
             ++ ((framer (st.buffer ++ (concatAll chunks).data)).1.filterMap
                  dataPayload),
           ((framer (st.buffer ++ (concatAll chunks).data)).1.filterMap
              dataPayload).foldl captureJson st.jsonResponse⟩ := by
  induction chunks with
  | nil =>
    intro st h
    rw [show ((concatAll []).data) = [] from rfl]
    rw [List.append_nil, List.foldl_nil]
    rw [framer_no_newline st.buffer h]
    simp
  | cons ch rest ih =>
    intro st h
    simp only [List.foldl_cons]
    have hrs : readStep st ch
        = ⟨(framer (st.buffer ++ ch.data)).2,
           st.calls
             ++ ((framer (st.buffer ++ ch.data)).1.filterMap dataPayload),
           ((framer (st.buffer ++ ch.data)).1.filterMap dataPayload).foldl
             captureJson st.jsonResponse⟩ := by
      unfold readStep
      rw [foldl_lineStep]
    rw [hrs]
    rw [ih ⟨(framer (st.buffer ++ ch.data)).2,
           st.calls
             ++ ((framer (st.buffer ++ ch.data)).1.filterMap dataPayload),
           ((framer (st.buffer ++ ch.data)).1.filterMap dataPayload).foldl
             captureJson st.jsonResponse⟩
         (fun c hc => framer_trail_no_newline _ c hc)]
    have hR := framer_append (st.buffer ++ ch.data) (concatAll rest).data
    have hA2 := framer_append (framer (st.buffer ++ ch.data)).2
      (concatAll rest).data
    have hnn : framer ((framer (st.buffer ++ ch.data)).2)
        = ([], (framer (st.buffer ++ ch.data)).2) :=
      framer_no_newline _ (framer_trail_no_newline _)
    have e1 : (framer ((framer (st.buffer ++ ch.data)).2
            ++ (concatAll rest).data)).1
        = prependFirst (framer (st.buffer ++ ch.data)).2
            (framer (concatAll rest).data).1 := by
      rw [hA2.1, hnn]
      simp
    have e2 : (framer ((framer (st.buffer ++ ch.data)).2
            ++ (concatAll rest).data)).2
        = (framer ((st.buffer ++ ch.data) ++ (concatAll rest).data)).2 := by
      rw [hA2.2, hR.2, hnn]
    have hdata : (concatAll (ch :: rest)).data
        = ch.data ++ (concatAll rest).data := by
      rw [show concatAll (ch :: rest) = ch ++ concatAll rest from rfl]
      rw [String.data_append]
    rw [hdata, ← List.append_assoc]
    have hfull1 : (framer ((st.buffer ++ ch.data) ++ (concatAll rest).data)).1
        = (framer (st.buffer ++ ch.data)).1
          ++ (framer ((framer (st.buffer ++ ch.data)).2
                ++ (concatAll rest).data)).1 := by
      rw [hR.1, e1]
    simp only [StreamLoopState.mk.injEq]
    refine ⟨e2, ?_, ?_⟩
    · rw [hfull1, List.filterMap_append, List.append_assoc]
    · rw [hfull1, List.filterMap_append, List.foldl_append]

/-- Claim C3, amended: on a completed stream the reader invokes
`onStreamEnd` exactly once, with the last `data:` payload line that is
itself a complete JSON object (begins with an open brace, ends with a
close brace and parses) — not with the reconstructor's envelope — and with
null when no such single line occurred, in particular when the stream
ends mid-collection; completing with null performs no action at all, so
previously emitted display text is left unchanged.  The buffered
per-read line splitting equals a single split of the whole stream text. -/
theorem stream_reader_line_framing (chunks : List String) (st : AccState)
    (tts : Bool) :
    sendMessageToBotStream chunks
      = (payloadsOf (concatAll chunks).data,
         lastCompleteJson (payloadsOf (concatAll chunks).data)) ∧
    handleStreamingComplete st none tts = (none, none, st) := by
  constructor
  · unfold sendMessageToBotStream
    rw [readLoop_correct chunks ⟨[], [], none⟩ (by intro c hc; simp at hc)]
    simp [payloadsOf, lastCompleteJson]
  · rfl
